import Mathlib

/-!
Verification of the CSV-to-database code importer in
src/scripts/import_codes.py (the sole source file of the repository).

The script reads CSV rows, derives one target record per row, batches the
records in groups of 100 and upserts each batch into a table keyed on the
derived code.  The definitions below are a shallow embedding of that script:
each definition's doc comment points at the source lines it embeds.
-/

/-- A parsed CSV row as produced by csv.DictReader over the fixed header
(spec section 6): thirteen string fields, no validation. -/
structure Row where
  billing_code : String
  place : String
  description : String
  unit_require : String
  tariff_value : String
  extra_unit_value : String
  source_file : String
  top_level : String
  level1_group : String
  level2_group : String
  leaf : String
  indicators : String
  anchor_id : String
deriving DecidableEq

/-- Python truthiness fallback on strings, embedding the idiom
`s or default` used at lines 35 and 46 of the script: the empty string is
the only falsy string, so the result is `d` when `s` is empty and `s`
otherwise. -/
def pyOrStr (s d : String) : String :=
  if s = "" then d else s

/-- The target record built per row (lines 44-63).  The JSON side-payload is
kept structured as an association list of string keys to string values: the
script builds a Python dict with string keys and string values and
serializes it with json.dumps, which preserves insertion order. -/
structure Record where
  code : String
  description : String
  category : String
  active : Bool
  custom_fields : List (String × String)
  updated_by : String
deriving DecidableEq

/-- The payload passed to json.dumps at lines 49-61: eleven keys, in the
dict's insertion order.  The value stored under the key "place" is the
normalized `place` variable of line 35 (the raw field, with empty replaced
by "all"), not the raw field itself. -/
def customFields (r : Row) : List (String × String) :=
  [ ("billing_code", r.billing_code)
  , ("place", pyOrStr r.place "all")
  , ("tariff_value", r.tariff_value)
  , ("extra_unit_value", r.extra_unit_value)
  , ("source_file", r.source_file)
  , ("top_level", r.top_level)
  , ("level1_group", r.level1_group)
  , ("level2_group", r.level2_group)
  , ("leaf", r.leaf)
  , ("indicators", r.indicators)
  , ("anchor_id", r.anchor_id) ]

/-- The per-row transformer, lines 34-63 of the script:
line 35 normalizes `place` (empty becomes "all"); lines 38-41 derive the
code (plain billing_code when the normalized place is "all", otherwise
billing_code, a dash and the place); lines 44-63 assemble the record. -/
def mkRecord (r : Row) : Record :=
  let place := pyOrStr r.place "all"
  { code := if place = "all" then r.billing_code
            else r.billing_code ++ "-" ++ place
  , description := pyOrStr r.description ""
  , category := place
  , active := r.unit_require == "FALSE"
  , custom_fields := customFields r
  , updated_by := "system_import" }

/-- The seven-component parameter tuple the script hands to execute_values
for each record, lines 86-87 (and identically lines 119-120).  Every
component is a value bound client-side; in particular the updated_at slot
is the Python string literal 'NOW()'. -/
structure SqlValues where
  code : String
  description : String
  category : String
  active : Bool
  custom_fields : List (String × String)
  updated_at : String
  updated_by : String
deriving DecidableEq

/-- Lines 86-87: the tuple
(r['code'], r['description'], r['category'], r['active'],
 r['custom_fields'], 'NOW()', r['updated_by']). -/
def paramTuple (r : Record) : SqlValues :=
  { code := r.code
  , description := r.description
  , category := r.category
  , active := r.active
  , custom_fields := r.custom_fields
  , updated_at := "NOW()"
  , updated_by := r.updated_by }

/-- A concrete well-formed row used by witnesses and counterexamples. -/
def mkRow (bc pl ds : String) : Row :=
  { billing_code := bc
  , place := pl
  , description := ds
  , unit_require := "FALSE"
  , tariff_value := "10"
  , extra_unit_value := ""
  , source_file := "ramq_all"
  , top_level := "t"
  , level1_group := "g1"
  , level2_group := "g2"
  , leaf := "lf"
  , indicators := "ind"
  , anchor_id := "anchor" }

/-- One stored row of the codes table per record; the table is keyed on the
code column (unique key, spec section 3).  A table is a list of records in
storage order. -/
def upsertOne : List Record → Record → List Record
  | [], r => [r]
  | x :: tbl, r => if x.code = r.code then r :: tbl else x :: upsertOne tbl r

/-- Effect of a successful multi-row INSERT ... ON CONFLICT (code) DO UPDATE
statement (lines 76-84): each proposed row is inserted, or overwrites the
stored row carrying the same code, in the order the rows appear in the
VALUES list. -/
def applyBatch (tbl : List Record) (batch : List Record) : List Record :=
  batch.foldl upsertOne tbl

/-- The stored codes of a table, in storage order. -/
def codes (tbl : List Record) : List String :=
  tbl.map fun r => r.code

/-- The table invariant: no two stored rows share a code. -/
def codesNodup (tbl : List Record) : Prop :=
  (codes tbl).Nodup

/-- Lookup of the stored row carrying code c, if any. -/
def findCode (tbl : List Record) (c : String) : Option Record :=
  tbl.find? fun t => t.code == c

/-- Whether two records of a batch share a derived code. -/
def hasDupCodes : List Record → Bool
  | [] => false
  | b :: bs => bs.any (fun x => x.code == b.code) || hasDupCodes bs

/-- Modelled from PostgreSQL's documented semantics of the statement the
script executes at lines 73-89 (a single multi-row INSERT ... ON CONFLICT
(code) DO UPDATE built by psycopg2's execute_values): PostgreSQL specifies
that an ON CONFLICT DO UPDATE command must not affect any single row more
than once, and raises an error ("ON CONFLICT DO UPDATE command cannot
affect row a second time") when two rows proposed for insertion in the same
command carry the same conflict-target value; otherwise each proposed row
is inserted or overwrites the stored row with the same code.  The database
engine is outside this repository, so this semantics comes from the
PostgreSQL documentation of the exact statement in the source. -/
def pgUpsertStatement (tbl batch : List Record) : Option (List Record) :=
  if hasDupCodes batch then none else some (applyBatch tbl batch)

/-- Outcome oracle for one flush: whether the execute_values call raises for
an external reason (connection hiccup, constraint violation, bad value) and
whether the subsequent conn.commit() raises. -/
structure FlushOutcome where
  stmtOk : Bool
  commitOk : Bool
deriving DecidableEq

/-- Observable state after the run: the persisted table, the script's
running `count` (line 30), and how many flush statements were issued. -/
structure RunState where
  table : List Record
  count : Nat
  fi : Nat
deriving DecidableEq

/-- One flush, lines 69-99 (and identically lines 103-129): inside the try
block execute_values runs, then `count += len(batch)` (line 91), then
conn.commit() (line 93).  If execute_values raises — externally, or because
PostgreSQL rejects duplicate conflict keys within the statement — the
except clause rolls the transaction back and count is untouched.  If the
statement succeeds but conn.commit() raises, the transaction is rolled back
so nothing is persisted, but count was already incremented at line 91. -/
def doFlush (outs : Nat → FlushOutcome) (tbl : List Record) (cnt fi : Nat)
    (batch : List Record) : RunState :=
  if (outs fi).stmtOk && !hasDupCodes batch then
    if (outs fi).commitOk then
      ⟨applyBatch tbl batch, cnt + batch.length, fi + 1⟩
    else
      ⟨tbl, cnt + batch.length, fi + 1⟩
  else
    ⟨tbl, cnt, fi + 1⟩

/-- In-loop state: persisted table, pending batch, running count, number of
flushes issued so far. -/
structure LoopState where
  table : List Record
  batch : List Record
  count : Nat
  fi : Nat
deriving DecidableEq

/-- One iteration of the row loop, lines 32-99: build the record, append it
to the batch (line 65), and flush when the batch holds 100 records
(lines 68-99), clearing it afterwards (line 99). -/
def stepRow (outs : Nat → FlushOutcome) (s : LoopState) (r : Row) : LoopState :=
  let batch1 := s.batch ++ [mkRecord r]
  if 100 ≤ batch1.length then
    let t := doFlush outs s.table s.count s.fi batch1
    ⟨t.table, [], t.count, t.fi⟩
  else
    ⟨s.table, batch1, s.count, s.fi⟩

/-- Lines 102-129: after the rows are exhausted, flush the remaining batch
when it is non-empty. -/
def endRun (outs : Nat → FlushOutcome) (s : LoopState) : RunState :=
  if s.batch = [] then ⟨s.table, s.count, s.fi⟩
  else doFlush outs s.table s.count s.fi s.batch

/-- The whole run over a list of parsed rows, starting from a stored table
tbl0: the row loop of lines 32-99 followed by the final flush of
lines 102-129. -/
def runAll (outs : Nat → FlushOutcome) (tbl0 : List Record)
    (rows : List Row) : RunState :=
  endRun outs (rows.foldl (stepRow outs) ⟨tbl0, [], 0, 0⟩)

/-- The sequence of batches the run hands to execute_values, in order: the
same accumulation discipline as stepRow and endRun, without the database
effects.  Each flush issues exactly one statement (the batch never exceeds
100 records, execute_values' page size, so it is never split). -/
def flushBatches : List Record → List Row → List (List Record)
  | batch, [] => if batch = [] then [] else [batch]
  | batch, r :: rest =>
    if 100 ≤ (batch ++ [mkRecord r]).length then
      (batch ++ [mkRecord r]) :: flushBatches [] rest
    else
      flushBatches (batch ++ [mkRecord r]) rest

/-- The batches of a run started with an empty pending batch. -/
def flushesOf (rows : List Row) : List (List Record) :=
  flushBatches [] rows

/-- Reference count over a batch sequence: a batch contributes its length
exactly when its statement executes successfully (oracle says the call does
not raise, and the batch has no duplicate conflict keys). -/
def countSpec (outs : Nat → FlushOutcome) : Nat → List (List Record) → Nat
  | _, [] => 0
  | i, b :: bs =>
    (if ((outs i).stmtOk && !hasDupCodes b) = true then b.length else 0) +
      countSpec outs (i + 1) bs

/-- Reference table over a batch sequence: a batch is persisted exactly when
its statement executes successfully and its commit succeeds. -/
def tableSpec (outs : Nat → FlushOutcome) :
    Nat → List Record → List (List Record) → List Record
  | _, tbl, [] => tbl
  | i, tbl, b :: bs =>
    tableSpec outs (i + 1)
      (if (((outs i).stmtOk && !hasDupCodes b) && (outs i).commitOk) = true
       then applyBatch tbl b else tbl) bs

/-- A row event as seen by the for loop at line 32: either a well-formed row,
or a row whose field access raises (e.g. a KeyError for a missing column) —
an exception no handler in the script catches. -/
inductive RowEvent where
  | ok (r : Row)
  | missingField
deriving DecidableEq

/-- The body of the with-block, lines 27-129: processing the row events in
order succeeds unless some row raises a fatal error.  Per-batch upsert
failures are caught by the except clauses at lines 95-97 and 127-129 and
never escape the block, so only row-level errors make the body raise. -/
def runBody : List RowEvent → Option Unit
  | [] => some ()
  | RowEvent.ok _ :: rest => runBody rest
  | RowEvent.missingField :: _ => none

/-- Which of the three resources end up explicitly released. -/
structure CloseState where
  fileClosed : Bool
  curClosed : Bool
  connClosed : Bool
deriving DecidableEq

/-- Resource release on the script's exit paths.  The file handle is managed
by the with statement at line 26, which closes it whether the block exits
normally or by an exception.  cur.close() and conn.close() are the plain
statements at lines 134-135, guarded by no try/finally: they run only when
control flows past the with-block normally; a fatal row error propagates
past them. -/
def closeAfterRun (rows : List RowEvent) : CloseState :=
  match runBody rows with
  | some _ => { fileClosed := true, curClosed := true, connClosed := true }
  | none => { fileClosed := true, curClosed := false, connClosed := false }

/-- Claim C1: for every source row the derived code equals billing_code when
the row's place field is empty or the literal "all", and equals billing_code
concatenated with "-" and place for every other place value. -/
theorem c1_code_derivation (r : Row) :
    (mkRecord r).code =
      if r.place = "" ∨ r.place = "all" then r.billing_code
      else r.billing_code ++ "-" ++ r.place := by
  by_cases h1 : r.place = ""
  · simp [mkRecord, pyOrStr, h1]
  · by_cases h2 : r.place = "all" <;> simp [mkRecord, pyOrStr, h1, h2]

/-- Claim C2: the derived record's active field is true exactly when the
row's unit_require field is the literal string "FALSE" (case-sensitive exact
comparison, line 48 of the script); every other value yields false. -/
theorem c2_active_iff (r : Row) :
    (mkRecord r).active = true ↔ r.unit_require = "FALSE" := by
  simp [mkRecord]

/-- Witness for c2_active_iff at a concrete row whose unit_require is
"FALSE". -/
theorem c2_active_iff_witness :
    (mkRecord (mkRow "ABC123" "" "desc")).active = true :=
  (c2_active_iff (mkRow "ABC123" "" "desc")).mpr rfl

/-- Claim C9: the derived category is never the empty string, because
line 35 replaces an empty place with "all" before line 47 assigns it to
category. -/
theorem c9_category_nonempty (r : Row) : (mkRecord r).category ≠ "" := by
  by_cases h : r.place = "" <;> simp [mkRecord, pyOrStr, h]

/-- Witness for c9_category_nonempty at a concrete row with empty place. -/
theorem c9_category_nonempty_witness :
    (mkRecord (mkRow "ABC123" "" "desc")).category ≠ "" :=
  c9_category_nonempty (mkRow "ABC123" "" "desc")

/-- Claim C10: two rows that agree on every field except that one has place
"" and the other place "all" are transformed to identical records (same
code, category and custom_fields payload): the output carries no information
distinguishing the two inputs. -/
theorem c10_empty_place_equals_all (r : Row) :
    mkRecord { r with place := "" } = mkRecord { r with place := "all" } := by
  simp [mkRecord, customFields, pyOrStr]

/-- Claim C5 counterexample: for a row whose raw place field is empty, the
payload stores "all" under the key "place", not a verbatim copy of the raw
field, refuting the claim that every key's value is a verbatim copy of the
corresponding source field. -/
theorem c5_counterexample :
    (mkRow "ABC123" "" "desc").place = "" ∧
    (customFields (mkRow "ABC123" "" "desc")).lookup "place" = some "all" ∧
    (customFields (mkRow "ABC123" "" "desc")).lookup "place" ≠
      some (mkRow "ABC123" "" "desc").place := by
  decide

/-- Claim C5 as amended: the payload is an object with exactly the eleven
listed keys, in order; every key's value is a verbatim copy of the
corresponding source field except "place", which stores the normalized
place — the raw place field when non-empty and the literal "all" when the
raw field is empty. -/
theorem c5_custom_fields_amended (r : Row) :
    (customFields r).map Prod.fst =
      ["billing_code", "place", "tariff_value", "extra_unit_value",
       "source_file", "top_level", "level1_group", "level2_group",
       "leaf", "indicators", "anchor_id"] ∧
    (customFields r).lookup "billing_code" = some r.billing_code ∧
    (customFields r).lookup "place" = some (pyOrStr r.place "all") ∧
    (customFields r).lookup "tariff_value" = some r.tariff_value ∧
    (customFields r).lookup "extra_unit_value" = some r.extra_unit_value ∧
    (customFields r).lookup "source_file" = some r.source_file ∧
    (customFields r).lookup "top_level" = some r.top_level ∧
    (customFields r).lookup "level1_group" = some r.level1_group ∧
    (customFields r).lookup "level2_group" = some r.level2_group ∧
    (customFields r).lookup "leaf" = some r.leaf ∧
    (customFields r).lookup "indicators" = some r.indicators ∧
    (customFields r).lookup "anchor_id" = some r.anchor_id :=
  ⟨rfl, rfl, rfl, rfl, rfl, rfl, rfl, rfl, rfl, rfl, rfl, rfl⟩

/-- Claim C7: the value bound into the updated_at slot of every parameter
tuple is the constant string "NOW()" (lines 86-87 and 119-120).  It is a
client-side literal, identical for every record, independent of any clock:
psycopg2 transmits it as a quoted text constant, so the database never
evaluates the SQL function NOW() for this column.  This proves the code
contradicts the claimed server-side timestamp (a code bug: the developer
plainly intended the SQL expression NOW(), as the surrounding statement's
EXCLUDED.updated_at handling shows). -/
theorem c7_updated_at_literal (r : Record) :
    (paramTuple r).updated_at = "NOW()" :=
  rfl

/-- Codes of a cons table. -/
theorem codes_cons (x : Record) (tbl : List Record) :
    codes (x :: tbl) = x.code :: codes tbl :=
  rfl

/-- Codes of the table after one upsert: unchanged when some stored row
already carries the record's code (that row is overwritten in place),
extended by the new code otherwise. -/
theorem codes_upsertOne (r : Record) :
    ∀ tbl : List Record, codes (upsertOne tbl r) =
      if (tbl.any fun x => x.code == r.code) = true then codes tbl
      else codes tbl ++ [r.code]
  | [] => by simp [upsertOne, codes]
  | x :: tbl => by
    by_cases hx : x.code = r.code
    · simp [upsertOne, hx, codes_cons, List.any_cons]
    · have hbx : (x.code == r.code) = false := by simp [hx]
      rw [show upsertOne (x :: tbl) r = x :: upsertOne tbl r by simp [upsertOne, hx],
        codes_cons, codes_upsertOne r tbl, List.any_cons, hbx, Bool.false_or]
      by_cases ha : (tbl.any fun y => y.code == r.code) = true
      · simp [ha, codes_cons]
      · simp [ha, codes_cons]

/-- One upsert preserves the at-most-one-row-per-code invariant. -/
theorem codesNodup_upsertOne (r : Record) (tbl : List Record)
    (h : codesNodup tbl) : codesNodup (upsertOne tbl r) := by
  unfold codesNodup at h ⊢
  rw [codes_upsertOne]
  by_cases ha : (tbl.any fun x => x.code == r.code) = true
  · simpa [ha] using h
  · have hr : r.code ∉ codes tbl := by
      intro hmem
      rcases List.mem_map.mp hmem with ⟨x, hx, hxc⟩
      exact ha (List.any_eq_true.mpr ⟨x, hx, beq_iff_eq.mpr hxc⟩)
    simp [ha, List.nodup_append, h, hr]

/-- A whole successful batch preserves the invariant. -/
theorem codesNodup_applyBatch : ∀ (batch tbl : List Record),
    codesNodup tbl → codesNodup (applyBatch tbl batch)
  | [], tbl, h => by simpa [applyBatch] using h
  | b :: bs, tbl, h => by
    have h2 : codesNodup (applyBatch (upsertOne tbl b) bs) :=
      codesNodup_applyBatch bs (upsertOne tbl b) (codesNodup_upsertOne b tbl h)
    simpa [applyBatch] using h2

/-- After upserting r, looking its code up yields r. -/
theorem findCode_upsertOne_self (r : Record) :
    ∀ tbl : List Record, findCode (upsertOne tbl r) r.code = some r
  | [] => by simp [upsertOne, findCode]
  | x :: tbl => by
    by_cases hx : x.code = r.code
    · simp [upsertOne, hx, findCode]
    · have hbx : (x.code == r.code) = false := by simp [hx]
      rw [show upsertOne (x :: tbl) r = x :: upsertOne tbl r by simp [upsertOne, hx]]
      simpa [findCode, List.find?_cons, hbx] using findCode_upsertOne_self r tbl

/-- Upserting r leaves every other code's lookup unchanged. -/
theorem findCode_upsertOne_ne (r : Record) (c : String) (h : c ≠ r.code) :
    ∀ tbl : List Record, findCode (upsertOne tbl r) c = findCode tbl c
  | [] => by
    have hrc : (r.code == c) = false := beq_eq_false_iff_ne.mpr fun e => h e.symm
    simp [upsertOne, findCode, hrc]
  | x :: tbl => by
    have hrc : (r.code == c) = false := beq_eq_false_iff_ne.mpr fun e => h e.symm
    by_cases hx : x.code = r.code
    · have hxc : (x.code == c) = false := by rw [hx]; exact hrc
      simp [upsertOne, hx, findCode, List.find?_cons, hrc, hxc]
    · by_cases hxc : (x.code == c) = true
      · simp [upsertOne, hx, findCode, List.find?_cons, hxc]
      · have hxc2 : (x.code == c) = false := by simpa using hxc
        rw [show upsertOne (x :: tbl) r = x :: upsertOne tbl r by simp [upsertOne, hx]]
        simpa [findCode, List.find?_cons, hxc2] using findCode_upsertOne_ne r c h tbl

/-- A batch touching none of code c leaves c's lookup unchanged. -/
theorem findCode_applyBatch_ne : ∀ (batch tbl : List Record) (c : String),
    (∀ b ∈ batch, b.code ≠ c) →
    findCode (applyBatch tbl batch) c = findCode tbl c
  | [], tbl, c, _ => by simp [applyBatch]
  | b :: bs, tbl, c, h => by
    have h1 : c ≠ b.code := fun e => h b (List.mem_cons_self b bs) e.symm
    have h2 : ∀ x ∈ bs, x.code ≠ c := fun x hx => h x (List.mem_cons_of_mem b hx)
    have e1 : findCode (applyBatch tbl (b :: bs)) c
        = findCode (applyBatch (upsertOne tbl b) bs) c := by simp [applyBatch]
    rw [e1, findCode_applyBatch_ne bs (upsertOne tbl b) c h2,
      findCode_upsertOne_ne b c h1 tbl]

/-- After a successful statement whose batch has no duplicate codes, each
record of the batch is stored under its code. -/
theorem findCode_applyBatch_mem : ∀ (batch tbl : List Record) (r : Record),
    hasDupCodes batch = false → r ∈ batch →
    findCode (applyBatch tbl batch) r.code = some r
  | [], _, r, _, hr => absurd hr (List.not_mem_nil r)
  | b :: bs, tbl, r, hd, hr => by
    have hsplit : (∀ x ∈ bs, ¬x.code = b.code) ∧ hasDupCodes bs = false := by
      simpa [hasDupCodes] using hd
    rcases List.mem_cons.mp hr with rfl | hm
    · have hne : ∀ x ∈ bs, x.code ≠ r.code := hsplit.1
      have e1 : findCode (applyBatch tbl (r :: bs)) r.code
          = findCode (applyBatch (upsertOne tbl r) bs) r.code := by simp [applyBatch]
      rw [e1, findCode_applyBatch_ne bs (upsertOne tbl r) r.code hne,
        findCode_upsertOne_self r tbl]
    · have e1 : findCode (applyBatch tbl (b :: bs)) r.code
          = findCode (applyBatch (upsertOne tbl b) bs) r.code := by simp [applyBatch]
      rw [e1, findCode_applyBatch_mem bs (upsertOne tbl b) r hsplit.2 hm]

/-- Claim C6 counterexample: two rows of the same run derive the same code
and land in the same batch.  With a fully cooperative oracle (no external
failure), the single statement carrying both records is the duplicate
conflict-key case PostgreSQL rejects, the batch rolls back, and nothing is
persisted: the later row's values are not stored, refuting last-write-wins
within a batch. -/
theorem c6_counterexample :
    (mkRecord (mkRow "A1" "X" "first")).code
      = (mkRecord (mkRow "A1" "X" "second")).code ∧
    (runAll (fun _ => ⟨true, true⟩) []
        [mkRow "A1" "X" "first", mkRow "A1" "X" "second"]).table = [] ∧
    (runAll (fun _ => ⟨true, true⟩) []
        [mkRow "A1" "X" "first", mkRow "A1" "X" "second"]).count = 0 := by
  decide

/-- Claim C6 as amended: the table keyed on code keeps at most one row per
distinct code, and a row upserted by a later statement overwrites the
stored row with the same code (last-write-wins across statements, hence
across batches and runs); but when two records of the same batch share a
derived code, the batch's single statement fails (duplicate conflict keys)
and none of its records is persisted. -/
theorem c6_upsert_amended (tbl batch : List Record) (h : codesNodup tbl) :
    (hasDupCodes batch = true → pgUpsertStatement tbl batch = none) ∧
    (hasDupCodes batch = false →
      pgUpsertStatement tbl batch = some (applyBatch tbl batch) ∧
      codesNodup (applyBatch tbl batch) ∧
      ∀ r ∈ batch, findCode (applyBatch tbl batch) r.code = some r) ∧
    ∀ r1 r2 : Record, r1.code = r2.code →
      findCode (applyBatch (applyBatch tbl [r1]) [r2]) r2.code = some r2 := by
  refine ⟨fun hd => by simp [pgUpsertStatement, hd],
    fun hd => ⟨by simp [pgUpsertStatement, hd],
      codesNodup_applyBatch batch tbl h,
      fun r hr => findCode_applyBatch_mem batch tbl r hd hr⟩,
    fun r1 r2 _ => ?_⟩
  simpa [applyBatch] using findCode_upsertOne_self r2 (applyBatch tbl [r1])

/-- Witness for c6_upsert_amended: a concrete duplicate-free batch over the
empty table, and a concrete pair of same-code records upserted by two
successive statements. -/
theorem c6_upsert_amended_witness :
    pgUpsertStatement []
        [mkRecord (mkRow "A" "1" "d"), mkRecord (mkRow "B" "2" "d")] =
      some (applyBatch []
        [mkRecord (mkRow "A" "1" "d"), mkRecord (mkRow "B" "2" "d")]) ∧
    codesNodup (applyBatch []
      [mkRecord (mkRow "A" "1" "d"), mkRecord (mkRow "B" "2" "d")]) ∧
    findCode
        (applyBatch (applyBatch [] [mkRecord (mkRow "A" "1" "x")])
          [mkRecord (mkRow "A" "1" "y")])
        (mkRecord (mkRow "A" "1" "y")).code =
      some (mkRecord (mkRow "A" "1" "y")) := by
  have h := c6_upsert_amended []
    [mkRecord (mkRow "A" "1" "d"), mkRecord (mkRow "B" "2" "d")]
    (by simp [codesNodup, codes])
  have hd : hasDupCodes
      [mkRecord (mkRow "A" "1" "d"), mkRecord (mkRow "B" "2" "d")] = false := by
    decide
  exact ⟨(h.2.1 hd).1, (h.2.1 hd).2.1,
    h.2.2 (mkRecord (mkRow "A" "1" "x")) (mkRecord (mkRow "A" "1" "y")) (by decide)⟩

/-- Claim C8 counterexample: a run whose single row raises a fatal error (a
missing column).  The with statement still closes the file, but the
exception propagates past lines 134-135, so neither the cursor nor the
connection is explicitly released before the process returns. -/
theorem c8_counterexample :
    (closeAfterRun [RowEvent.missingField]).fileClosed = true ∧
    (closeAfterRun [RowEvent.missingField]).curClosed = false ∧
    (closeAfterRun [RowEvent.missingField]).connClosed = false := by
  decide

/-- Claim C8 as amended: the file handle is released on every exit path; the
cursor and connection are released when the row loop completes without a
fatal per-row error (per-batch upsert failures are caught and do not
prevent this), but on abnormal termination from a fatal per-row error the
cursor and connection close calls are skipped. -/
theorem c8_close_amended (rows : List RowEvent) :
    (closeAfterRun rows).fileClosed = true ∧
    (runBody rows = some () →
      (closeAfterRun rows).curClosed = true ∧
      (closeAfterRun rows).connClosed = true) ∧
    (runBody rows = none →
      (closeAfterRun rows).curClosed = false ∧
      (closeAfterRun rows).connClosed = false) := by
  cases h : runBody rows <;> simp [closeAfterRun, h]

/-- Witness for c8_close_amended at a concrete run of one well-formed row:
all three resources are released. -/
theorem c8_close_amended_witness :
    (closeAfterRun [RowEvent.ok (mkRow "A" "1" "d")]).fileClosed = true ∧
    (closeAfterRun [RowEvent.ok (mkRow "A" "1" "d")]).curClosed = true ∧
    (closeAfterRun [RowEvent.ok (mkRow "A" "1" "d")]).connClosed = true := by
  have h := c8_close_amended [RowEvent.ok (mkRow "A" "1" "d")]
  exact ⟨h.1, (h.2.1 rfl).1, (h.2.1 rfl).2⟩

/-- Count component of one flush: the batch's length is added exactly when
the statement executes successfully, whether or not the commit succeeds. -/
theorem doFlush_count (outs : Nat → FlushOutcome) (tbl : List Record)
    (cnt fi : Nat) (batch : List Record) :
    (doFlush outs tbl cnt fi batch).count =
      cnt + (if ((outs fi).stmtOk && !hasDupCodes batch) = true
             then batch.length else 0) := by
  by_cases h1 : ((outs fi).stmtOk && !hasDupCodes batch) = true
  · by_cases h2 : (outs fi).commitOk = true <;> simp [doFlush, h1, h2]
  · simp [doFlush, h1]

/-- Table component of one flush: the batch is persisted exactly when the
statement executes successfully and the commit succeeds. -/
theorem doFlush_table (outs : Nat → FlushOutcome) (tbl : List Record)
    (cnt fi : Nat) (batch : List Record) :
    (doFlush outs tbl cnt fi batch).table =
      if (((outs fi).stmtOk && !hasDupCodes batch) && (outs fi).commitOk) = true
      then applyBatch tbl batch else tbl := by
  by_cases h1 : ((outs fi).stmtOk && !hasDupCodes batch) = true
  · by_cases h2 : (outs fi).commitOk = true <;> simp [doFlush, h1, h2]
  · simp [doFlush, h1]

/-- Each flush issues one statement and advances the statement index. -/
theorem doFlush_fi (outs : Nat → FlushOutcome) (tbl : List Record)
    (cnt fi : Nat) (batch : List Record) :
    (doFlush outs tbl cnt fi batch).fi = fi + 1 := by
  by_cases h1 : ((outs fi).stmtOk && !hasDupCodes batch) = true
  · by_cases h2 : (outs fi).commitOk = true <;> simp [doFlush, h1, h2]
  · simp [doFlush, h1]

/-- The row loop started from an arbitrary loop state realizes the
reference count and reference table over its batch sequence. -/
theorem runAll_spec (outs : Nat → FlushOutcome) (rows : List Row) :
    ∀ s : LoopState,
      (endRun outs (rows.foldl (stepRow outs) s)).count =
        s.count + countSpec outs s.fi (flushBatches s.batch rows) ∧
      (endRun outs (rows.foldl (stepRow outs) s)).table =
        tableSpec outs s.fi s.table (flushBatches s.batch rows) := by
  induction rows with
  | nil =>
    intro s
    by_cases hb : s.batch = []
    · simp [endRun, flushBatches, hb, countSpec, tableSpec]
    · constructor
      · simp [endRun, flushBatches, hb, countSpec, doFlush_count]
      · simp [endRun, flushBatches, hb, tableSpec, doFlush_table]
  | cons r rest ih =>
    intro s
    rw [List.foldl_cons]
    by_cases hf : 100 ≤ (s.batch ++ [mkRecord r]).length
    · have hf1 : 99 ≤ s.batch.length := by
        simp [List.length_append] at hf; omega
      have hstep : stepRow outs s r =
          ⟨(doFlush outs s.table s.count s.fi (s.batch ++ [mkRecord r])).table, [],
           (doFlush outs s.table s.count s.fi (s.batch ++ [mkRecord r])).count,
           (doFlush outs s.table s.count s.fi (s.batch ++ [mkRecord r])).fi⟩ := by
        simp [stepRow, hf1]
      rw [hstep]
      have hih := ih
        ⟨(doFlush outs s.table s.count s.fi (s.batch ++ [mkRecord r])).table, [],
         (doFlush outs s.table s.count s.fi (s.batch ++ [mkRecord r])).count,
         (doFlush outs s.table s.count s.fi (s.batch ++ [mkRecord r])).fi⟩
      simp only [flushBatches, if_pos hf] at *
      constructor
      · rw [hih.1, doFlush_count, doFlush_fi]
        simp only [countSpec]
        omega
      · rw [hih.2, doFlush_table, doFlush_fi]
        simp only [tableSpec]
    · have hf1 : ¬99 ≤ s.batch.length := by
        simp [List.length_append] at hf; omega
      have hstep : stepRow outs s r =
          ⟨s.table, s.batch ++ [mkRecord r], s.count, s.fi⟩ := by
        simp [stepRow, hf1]
      rw [hstep]
      have hih := ih ⟨s.table, s.batch ++ [mkRecord r], s.count, s.fi⟩
      simp only [flushBatches, if_neg hf] at *
      exact hih

/-- Claim C4 counterexample: a run of one row whose single (final-batch)
statement succeeds but whose commit fails.  The script increments count at
line 124 before conn.commit() at line 125, so the reported count is 1
although no batch was committed — the persisted table is unchanged —
refuting the claim that the count includes a batch's size exactly when that
batch was successfully committed. -/
theorem c4_counterexample :
    (runAll (fun _ => ⟨true, false⟩) [] [mkRow "A" "1" "d"]).count = 1 ∧
    (runAll (fun _ => ⟨true, false⟩) [] [mkRow "A" "1" "d"]).table = [] := by
  decide

/-- Claim C4 as amended: a failed statement's batch is rolled back, dropped
and never retried, and processing continues with subsequent batches; the
final reported count includes the size of a batch if and only if that
batch's upsert statement executed successfully — a batch whose statement
succeeds but whose commit then fails is rolled back (its records are not
persisted) yet its size is still included in the reported count.  Formally:
the run's count equals the reference count that charges exactly the
statement-successful batches, and the run's table equals the reference
table that persists exactly the committed batches. -/
theorem c4_count_amended (outs : Nat → FlushOutcome) (tbl0 : List Record)
    (rows : List Row) :
    (runAll outs tbl0 rows).count = countSpec outs 0 (flushesOf rows) ∧
    (runAll outs tbl0 rows).table = tableSpec outs 0 tbl0 (flushesOf rows) := by
  have h := runAll_spec outs rows ⟨tbl0, [], 0, 0⟩
  simpa [runAll, flushesOf] using h

/-- Sizes of the batch sequence, for any pending batch below the flush
threshold: all full batches of 100, then the non-zero remainder if any. -/
theorem flushBatches_sizes (rows : List Row) :
    ∀ batch : List Record, batch.length ≤ 99 →
      (flushBatches batch rows).map List.length =
        List.replicate ((batch.length + rows.length) / 100) 100 ++
          (if (batch.length + rows.length) % 100 = 0 then []
           else [(batch.length + rows.length) % 100]) := by
  induction rows with
  | nil =>
    intro batch hb
    simp only [List.length_nil, Nat.add_zero]
    by_cases h : batch = []
    · simp [flushBatches, h]
    · have hpos : 0 < batch.length := List.length_pos.mpr h
      have e1 : batch.length / 100 = 0 := by omega
      have e2 : batch.length % 100 = batch.length := by omega
      rw [e1, e2, if_neg (by omega)]
      simp [flushBatches, h]
  | cons r rest ih =>
    intro batch hb
    simp only [flushBatches]
    by_cases hf : 100 ≤ (batch ++ [mkRecord r]).length
    · rw [if_pos hf]
      have hlen : (batch ++ [mkRecord r]).length = batch.length + 1 := by simp
      have hb99 : batch.length = 99 := by rw [hlen] at hf; omega
      have hT : batch.length + (r :: rest).length = 100 + rest.length := by
        simp [List.length_cons]; omega
      rw [hT]
      have e2 : (100 + rest.length) / 100 = rest.length / 100 + 1 := by omega
      have e3 : (100 + rest.length) % 100 = rest.length % 100 := by omega
      rw [e2, e3, List.replicate_succ, List.map_cons, ih [] (by simp), hlen, hb99,
        List.cons_append]
      simp
    · rw [if_neg hf]
      have hlen : (batch ++ [mkRecord r]).length = batch.length + 1 := by simp
      have hb9 : (batch ++ [mkRecord r]).length ≤ 99 := by rw [hlen]; omega
      rw [ih (batch ++ [mkRecord r]) hb9]
      have hT : batch.length + (r :: rest).length
          = (batch ++ [mkRecord r]).length + rest.length := by
        rw [hlen]
        simp only [List.length_cons]
        omega
      rw [hT]

/-- Claim C3: for N well-formed rows the run hands exactly ceil(N/100)
batches to execute_values (each a single statement); every batch except
possibly the last holds exactly 100 records, and the last holds N mod 100
records, or 100 when N is a positive multiple of 100 — a flush fires each
time the pending batch reaches 100 records (the replicate part), and the
remaining non-empty partial batch is flushed after the rows are exhausted
(the remainder part).  Statement issuing does not depend on batch
outcomes, so no-failure runs are covered in particular. -/
theorem c3_batch_sizes (rows : List Row) :
    (flushesOf rows).map List.length =
      List.replicate (rows.length / 100) 100 ++
        (if rows.length % 100 = 0 then [] else [rows.length % 100]) ∧
    (flushesOf rows).length = (rows.length + 99) / 100 := by
  have h := flushBatches_sizes rows [] (by simp)
  simp only [List.length_nil, Nat.zero_add] at h
  have h2 : (flushesOf rows).map List.length =
      List.replicate (rows.length / 100) 100 ++
        (if rows.length % 100 = 0 then [] else [rows.length % 100]) := h
  constructor
  · exact h2
  · have hlen : (flushesOf rows).length
        = ((flushesOf rows).map List.length).length := by simp
    rw [hlen, h2]
    by_cases hm : rows.length % 100 = 0 <;> simp [hm] <;> omega
